import Mathlib

/-!
Verification of the auto-trader core: rule trigger semantics, the safety
gate, the backtest simulator's metrics, and the trading loop's shutdown
behaviour.  Python `Decimal` values are embedded as `ℚ` (exact decimal
arithmetic), Python `int` as `ℤ` or `ℕ`, and fallible constructors as
`Option`.
-/

/-- Action to take when a rule triggers (`RuleAction` in
`trader/rules/models.py`, values "buy" and "sell"). -/
inductive RuleAction where
  | buy
  | sell
deriving DecidableEq, Repr

/-- Serialized enum value, as Python `RuleAction(...).value`. -/
def RuleAction.value : RuleAction → String
  | .buy => "buy"
  | .sell => "sell"

/-- Parse an action string, as the Python enum constructor `RuleAction(s)`
(raises, i.e. `none`, on any other string). -/
def RuleAction.ofString : String → Option RuleAction
  | "buy" => some .buy
  | "sell" => some .sell
  | _ => none

/-- Price condition for triggering (`RuleCondition` in
`trader/rules/models.py`, values "below" and "above"). -/
inductive RuleCondition where
  | below
  | above
deriving DecidableEq, Repr

/-- Serialized enum value, as Python `RuleCondition(...).value`. -/
def RuleCondition.value : RuleCondition → String
  | .below => "below"
  | .above => "above"

/-- Parse a condition string, as the Python enum constructor
`RuleCondition(s)`. -/
def RuleCondition.ofString : String → Option RuleCondition
  | "below" => some .below
  | "above" => some .above
  | _ => none

/-- Python `str.upper()` restricted to the ASCII symbols the repository
stores: uppercases every character. -/
def strUpper (s : String) : String := ⟨s.data.map Char.toUpper⟩

/-- Trading rule (`Rule` dataclass in `trader/rules/models.py`). -/
structure Rule where
  symbol : String
  action : RuleAction
  condition : RuleCondition
  target_price : ℚ
  quantity : ℤ
  id : String
  enabled : Bool
  triggered : Bool
  description : Option String
deriving DecidableEq, Repr

/-- Rule construction (`Rule.__init__` together with `__post_init__`):
uppercases the symbol, and fails (`ValueError`, modelled as `none`)
when the quantity or the target price is non-positive. -/
def mkRule (symbol : String) (action : RuleAction) (condition : RuleCondition)
    (target_price : ℚ) (quantity : ℤ) (id : String)
    (enabled triggered : Bool) (description : Option String) : Option Rule :=
  if quantity ≤ 0 then none
  else if target_price ≤ 0 then none
  else some {
    symbol := strUpper symbol, action, condition, target_price, quantity,
    id, enabled, triggered, description }

/-- A rule as produced by `mkRule`: positive quantity and target price,
symbol already upper-case. -/
def Rule.valid (r : Rule) : Prop :=
  0 < r.quantity ∧ 0 < r.target_price ∧ strUpper r.symbol = r.symbol

instance (r : Rule) : Decidable r.valid := by
  unfold Rule.valid; infer_instance

/-- `Rule.check` from `trader/rules/models.py`: returns false when the rule
is disabled or already triggered; otherwise BELOW triggers when
`current_price <= target_price` and ABOVE when
`current_price >= target_price`. -/
def Rule.check (r : Rule) (current_price : ℚ) : Bool :=
  if !r.enabled || r.triggered then false
  else
    match r.condition with
    | .below => decide (current_price ≤ r.target_price)
    | .above => decide (current_price ≥ r.target_price)

/-- Persisted record of a rule (`Rule.to_dict` keys).  The target price is
serialized as exact decimal text in Python; text round-trips `Decimal`
exactly, so the field is modelled by the `ℚ` value it denotes. -/
structure RuleDict where
  id : String
  symbol : String
  action : String
  condition : String
  target_price : ℚ
  quantity : ℤ
  enabled : Bool
  triggered : Bool
  description : Option String
deriving DecidableEq, Repr

/-- `Rule.to_dict` from `trader/rules/models.py`. -/
def Rule.to_dict (r : Rule) : RuleDict :=
  { id := r.id, symbol := r.symbol, action := r.action.value,
    condition := r.condition.value, target_price := r.target_price,
    quantity := r.quantity, enabled := r.enabled, triggered := r.triggered,
    description := r.description }

/-- `Rule.from_dict` from `trader/rules/models.py`: parses the enum fields
and rebuilds the rule through the validating constructor. -/
def Rule.from_dict (d : RuleDict) : Option Rule := do
  let a ← RuleAction.ofString d.action
  let c ← RuleCondition.ofString d.condition
  mkRule d.symbol a c d.target_price d.quantity d.id d.enabled d.triggered
    d.description

/-- C1: `Rule.check` returns true exactly when the rule is enabled, not yet
triggered, and the price condition holds: `p ≤ target_price` for BELOW and
`p ≥ target_price` for ABOVE (both comparisons inclusive). -/
theorem C1_rule_check_iff (r : Rule) (p : ℚ) :
    r.check p = true ↔
      (r.enabled = true ∧ r.triggered = false ∧
        (r.condition = RuleCondition.below → p ≤ r.target_price) ∧
        (r.condition = RuleCondition.above → r.target_price ≤ p)) := by
  unfold Rule.check
  cases he : r.enabled <;> cases ht : r.triggered <;>
    cases hc : r.condition <;> simp [hc, ge_iff_le]

/-- C8: for every valid rule, serializing with `to_dict` and parsing back
with `from_dict` recovers the rule, field for field. -/
theorem C8_round_trip (r : Rule) (h : r.valid) :
    Rule.from_dict r.to_dict = some r := by
  obtain ⟨hq, hp, hs⟩ := h
  obtain ⟨sym, act, cond, tp, q, i, en, tr, d⟩ := r
  simp only [Rule.to_dict, Rule.from_dict] at *
  cases act <;> cases cond <;>
    simp [RuleAction.value, RuleAction.ofString, RuleCondition.value,
      RuleCondition.ofString, mkRule, not_le.mpr hq, not_le.mpr hp, hs]

/-- Example rule used to instantiate the round-trip theorem. -/
def exRule : Rule :=
  { symbol := "AAPL", action := .buy, condition := .below,
    target_price := 170, quantity := 10, id := "r1",
    enabled := true, triggered := false, description := none }

/-- Witness for C8 at a concrete rule. -/
theorem C8_round_trip_witness :
    exRule.valid ∧ Rule.from_dict exRule.to_dict = some exRule :=
  ⟨by decide, C8_round_trip exRule (by decide)⟩

/-- Safety limit configuration (`SafetyLimits` in `trader/core/safety.py`),
with the source's default values. -/
structure SafetyLimits where
  max_position_size : ℤ := 100
  max_position_value : ℚ := 10000
  max_daily_loss : ℚ := 500
  max_daily_trades : ℤ := 50
  max_order_value : ℚ := 5000
deriving DecidableEq, Repr

/-- Denial reason produced by the safety checks.  The source returns
formatted strings; each constructor stands for one of those strings and
carries the values interpolated into it, so distinct failing checks give
distinct reasons. `ok` stands for the "OK" string of an allowed check. -/
inductive Reason where
  | ok
  | killSwitch
  | dailyLoss (pnl : ℚ)
  | dailyTrades (count : ℤ)
  | orderValue (v limit : ℚ)
  | quantityLimit (q limit : ℤ)
  | positionValue (v limit : ℚ)
  | buyingPower (need avail : ℚ)
deriving DecidableEq, Repr

/-- `SafetyCheck.check_can_trade` from `trader/core/safety.py`.  The mutable
object state is passed explicitly: `killed` is the `_killed` flag, `pnl` is
`ledger.get_total_today_pnl()` and `trade_count` is
`ledger.get_trade_count_today()`. -/
def check_can_trade (killed : Bool) (limits : SafetyLimits) (pnl : ℚ)
    (trade_count : ℤ) : Bool × Reason :=
  if killed then (false, .killSwitch)
  else if pnl < -limits.max_daily_loss then (false, .dailyLoss pnl)
  else if trade_count ≥ limits.max_daily_trades then
    (false, .dailyTrades trade_count)
  else (true, .ok)

/-- `SafetyCheck.check_order` from `trader/core/safety.py`.  Broker reads
are passed explicitly: `get_position` maps a symbol to the market value of
the current position when one is held (`broker.get_position`), and
`buying_power` is `broker.get_account().buying_power`. -/
def check_order (killed : Bool) (limits : SafetyLimits) (pnl : ℚ)
    (trade_count : ℤ) (get_position : String → Option ℚ) (buying_power : ℚ)
    (symbol : String) (quantity : ℤ) (price : ℚ) (is_buy : Bool) :
    Bool × Reason :=
  let ct := check_can_trade killed limits pnl trade_count
  if !ct.1 then (false, ct.2)
  else
    let order_value : ℚ := (quantity : ℚ) * price
    if order_value > limits.max_order_value then
      (false, .orderValue order_value limits.max_order_value)
    else if quantity > limits.max_position_size then
      (false, .quantityLimit quantity limits.max_position_size)
    else if is_buy then
      let current_value := (get_position symbol).getD 0
      let new_value := current_value + order_value
      if new_value > limits.max_position_value then
        (false, .positionValue new_value limits.max_position_value)
      else if order_value > buying_power then
        (false, .buyingPower order_value buying_power)
      else (true, .ok)
    else (true, .ok)

/-- Kill-switch operations on the `_killed` flag: `SafetyCheck.kill` and
`SafetyCheck.reset` from `trader/core/safety.py`. -/
inductive SOp where
  | kill
  | reset
deriving DecidableEq, Repr

/-- Apply one kill-switch operation to the `_killed` flag. -/
def applySOp (_ : Bool) : SOp → Bool
  | .kill => true
  | .reset => false

/-- Apply a sequence of kill-switch operations in order. -/
def applySOps (killed : Bool) (ops : List SOp) : Bool :=
  ops.foldl applySOp killed

/-- After any operation sequence whose last `kill` is not followed by a
`reset`, the `_killed` flag is set. -/
lemma applySOps_killed (init : Bool) (pre post : List SOp)
    (h : SOp.reset ∉ post) :
    applySOps init (pre ++ SOp.kill :: post) = true := by
  unfold applySOps
  rw [List.foldl_append]
  induction post generalizing init with
  | nil => rfl
  | cons op rest ih =>
    cases op with
    | kill => exact ih init fun hm => h (List.mem_cons_of_mem _ hm)
    | reset => exact absurd (List.mem_cons_self _ _) h

/-- C3: after a `kill` not followed by a `reset`, `check_can_trade` denies
with the kill-switch reason whatever the ledger aggregates are; appending a
`reset` makes the verdict agree with an unkilled gate. -/
theorem C3_kill_switch :
    (∀ (init : Bool) (pre post : List SOp) (limits : SafetyLimits)
        (pnl : ℚ) (cnt : ℤ), SOp.reset ∉ post →
        check_can_trade (applySOps init (pre ++ SOp.kill :: post)) limits pnl
            cnt = (false, Reason.killSwitch))
    ∧ (∀ (init : Bool) (ops : List SOp) (limits : SafetyLimits)
        (pnl : ℚ) (cnt : ℤ),
        check_can_trade (applySOps init (ops ++ [SOp.reset])) limits pnl cnt
          = check_can_trade false limits pnl cnt) := by
  constructor
  · intro init pre post limits pnl cnt h
    rw [applySOps_killed init pre post h]
    rfl
  · intro init ops limits pnl cnt
    unfold applySOps
    rw [List.foldl_append]
    rfl

/-- Witness for C3: a kill with no later reset denies with the kill reason
even when the loss and trade-count limits are also violated; after a reset
the verdict matches the unkilled gate. -/
theorem C3_kill_switch_witness :
    (SOp.reset ∉ ([] : List SOp))
    ∧ check_can_trade (applySOps false ([] ++ SOp.kill :: []))
        ({} : SafetyLimits) (-1000) 100 = (false, Reason.killSwitch)
    ∧ check_can_trade (applySOps false ([SOp.kill] ++ [SOp.reset]))
        ({} : SafetyLimits) (-1000) 100
        = check_can_trade false ({} : SafetyLimits) (-1000) 100 :=
  ⟨by decide,
   C3_kill_switch.1 false [] [] {} (-1000) 100 (by decide),
   C3_kill_switch.2 false [SOp.kill] {} (-1000) 100⟩

/-- C4: with the kill switch inactive and the trade count below the limit,
a daily P&L exactly at `-max_daily_loss` is allowed, while any P&L strictly
below `-max_daily_loss` is denied with the daily-loss reason. -/
theorem C4_daily_loss_boundary (limits : SafetyLimits) (cnt : ℤ) (pnl : ℚ)
    (hcnt : cnt < limits.max_daily_trades) :
    check_can_trade false limits (-limits.max_daily_loss) cnt
        = (true, Reason.ok)
    ∧ (pnl < -limits.max_daily_loss →
        check_can_trade false limits pnl cnt = (false, Reason.dailyLoss pnl))
    := by
  constructor
  · unfold check_can_trade
    simp [lt_irrefl, not_le.mpr hcnt]
  · intro h
    unfold check_can_trade
    simp [h]

/-- Witness for C4 at the default limits: P&L −500 is allowed, −501 is
denied with the daily-loss reason. -/
theorem C4_daily_loss_boundary_witness :
    ((0 : ℤ) < ({} : SafetyLimits).max_daily_trades)
    ∧ ((-501 : ℚ) < -({} : SafetyLimits).max_daily_loss)
    ∧ check_can_trade false ({} : SafetyLimits)
        (-({} : SafetyLimits).max_daily_loss) 0 = (true, Reason.ok)
    ∧ check_can_trade false ({} : SafetyLimits) (-501) 0
        = (false, Reason.dailyLoss (-501)) :=
  ⟨by decide, by decide,
   (C4_daily_loss_boundary {} 0 (-501) (by decide)).1,
   (C4_daily_loss_boundary {} 0 (-501) (by decide)).2 (by decide)⟩

/-- C2: `check_order` allows an order exactly when trading is allowed, the
notional is within `max_order_value`, the quantity is within
`max_position_size`, and — for buys only — the projected position value is
within `max_position_value` and the notional is within buying power;
moreover the checks run in that order and the first failing check's reason
is the one returned. -/
theorem C2_check_order_characterization
    (killed : Bool) (limits : SafetyLimits) (pnl : ℚ) (cnt : ℤ)
    (get_position : String → Option ℚ) (bp : ℚ) (symbol : String)
    (quantity : ℤ) (price : ℚ) (is_buy : Bool) :
    ((check_order killed limits pnl cnt get_position bp symbol quantity
        price is_buy).1 = true ↔
      ((check_can_trade killed limits pnl cnt).1 = true ∧
        (quantity : ℚ) * price ≤ limits.max_order_value ∧
        quantity ≤ limits.max_position_size ∧
        (is_buy = true →
          ((get_position symbol).getD 0 + (quantity : ℚ) * price
              ≤ limits.max_position_value ∧
            (quantity : ℚ) * price ≤ bp))))
    ∧ ((check_can_trade killed limits pnl cnt).1 = false →
        check_order killed limits pnl cnt get_position bp symbol quantity
            price is_buy
          = (false, (check_can_trade killed limits pnl cnt).2))
    ∧ ((check_can_trade killed limits pnl cnt).1 = true →
        (quantity : ℚ) * price > limits.max_order_value →
        check_order killed limits pnl cnt get_position bp symbol quantity
            price is_buy
          = (false, Reason.orderValue ((quantity : ℚ) * price)
              limits.max_order_value))
    ∧ ((check_can_trade killed limits pnl cnt).1 = true →
        (quantity : ℚ) * price ≤ limits.max_order_value →
        quantity > limits.max_position_size →
        check_order killed limits pnl cnt get_position bp symbol quantity
            price is_buy
          = (false, Reason.quantityLimit quantity limits.max_position_size))
    ∧ ((check_can_trade killed limits pnl cnt).1 = true →
        (quantity : ℚ) * price ≤ limits.max_order_value →
        quantity ≤ limits.max_position_size → is_buy = true →
        (get_position symbol).getD 0 + (quantity : ℚ) * price
            > limits.max_position_value →
        check_order killed limits pnl cnt get_position bp symbol quantity
            price is_buy
          = (false, Reason.positionValue
              ((get_position symbol).getD 0 + (quantity : ℚ) * price)
              limits.max_position_value))
    ∧ ((check_can_trade killed limits pnl cnt).1 = true →
        (quantity : ℚ) * price ≤ limits.max_order_value →
        quantity ≤ limits.max_position_size → is_buy = true →
        (get_position symbol).getD 0 + (quantity : ℚ) * price
            ≤ limits.max_position_value →
        (quantity : ℚ) * price > bp →
        check_order killed limits pnl cnt get_position bp symbol quantity
            price is_buy
          = (false, Reason.buyingPower ((quantity : ℚ) * price) bp))
    ∧ (((check_can_trade killed limits pnl cnt).1 = true ∧
        (quantity : ℚ) * price ≤ limits.max_order_value ∧
        quantity ≤ limits.max_position_size ∧
        (is_buy = true →
          ((get_position symbol).getD 0 + (quantity : ℚ) * price
              ≤ limits.max_position_value ∧
            (quantity : ℚ) * price ≤ bp))) →
        check_order killed limits pnl cnt get_position bp symbol quantity
            price is_buy = (true, Reason.ok)) := by
  unfold check_order
  cases hct : (check_can_trade killed limits pnl cnt).1 <;>
    cases is_buy <;>
      simp [hct] <;> split_ifs <;> simp_all [not_lt, le_of_lt]

/-- Witness for C2: with the default limits, a fresh ledger, no position
and ample buying power, a buy of 10 shares at 100 is allowed. -/
theorem C2_check_order_characterization_witness :
    check_order false ({} : SafetyLimits) 0 0 (fun _ => none) 100000 "AAPL"
      10 100 true = (true, Reason.ok) :=
  (C2_check_order_characterization false {} 0 0 (fun _ => none) 100000
      "AAPL" 10 100 true).2.2.2.2.2.2
    ⟨by decide, by norm_num, by decide, fun _ => ⟨by norm_num, by norm_num⟩⟩

/-- C10: a sell order's `check_order` verdict and reason are independent of
broker state — any two position maps and buying powers give the same
result. -/
theorem C10_sell_ignores_broker
    (killed : Bool) (limits : SafetyLimits) (pnl : ℚ) (cnt : ℤ)
    (pos1 pos2 : String → Option ℚ) (bp1 bp2 : ℚ) (symbol : String)
    (quantity : ℤ) (price : ℚ) :
    check_order killed limits pnl cnt pos1 bp1 symbol quantity price false
      = check_order killed limits pnl cnt pos2 bp2 symbol quantity price
          false := by
  unfold check_order
  split_ifs <;> first
    | rfl
    | exact (by assumption : False).elim

/-- Simulated trade (`BacktestTrade` in `trader/core/backtest.py`); the
timestamp is modelled as the simulated day index. -/
structure BacktestTrade where
  timestamp : ℕ
  symbol : String
  side : String
  quantity : ℤ
  price : ℚ
  rule_id : String
deriving DecidableEq, Repr

/-- Mutable state of `Backtester.run`: cash, the position dict (symbol to
quantity and volume-weighted average price, in insertion order), the
appended trades, the equity curve, the current price dict, and the rule
list that was passed in (carried so that its preservation is a stated
fact, not a modelling artefact). -/
structure BTState where
  cash : ℚ
  positions : List (String × ℤ × ℚ)
  trades : List BacktestTrade
  equity_curve : List ℚ
  prices : String → ℚ
  rules : List Rule

/-- Dict write `d[k] = v` on an insertion-ordered association list. -/
def assocSet {α : Type} (l : List (String × α)) (k : String) (v : α) :
    List (String × α) :=
  if (l.lookup k).isSome then
    l.map fun p => if p.1 = k then (k, v) else p
  else l ++ [(k, v)]

/-- Dict delete `del d[k]`. -/
def assocErase {α : Type} (l : List (String × α)) (k : String) :
    List (String × α) :=
  l.filter fun p => p.1 ≠ k

/-- Mark-to-market value of the positions dict, as computed for the equity
curve: the sum over positions of current price times quantity. -/
def positionsValue (prices : String → ℚ)
    (positions : List (String × ℤ × ℚ)) : ℚ :=
  (positions.map fun p => prices p.1 * (p.2.1 : ℚ)).sum

/-- The price-condition test inlined in the day loop of `Backtester.run`
(local variable `triggered`): BELOW compares `current_price <= target`,
ABOVE compares `current_price >= target`.  Unlike `Rule.check` it reads
neither `enabled` nor `triggered`. -/
def btTriggered (r : Rule) (current_price : ℚ) : Bool :=
  match r.condition with
  | .below => decide (current_price ≤ r.target_price)
  | .above => decide (current_price ≥ r.target_price)

/-- Trade execution for a triggered rule in `Backtester.run`: a buy
requires sufficient cash and merges into the position at volume-weighted
average cost; a sell requires a held position and sells up to the held
quantity. -/
def execTrade (day : ℕ) (st : BTState) (r : Rule) (current_price : ℚ) :
    BTState :=
  match r.action with
  | .buy =>
    let cost := current_price * (r.quantity : ℚ)
    if st.cash ≥ cost then
      let positions :=
        match st.positions.lookup r.symbol with
        | some (old_qty, old_price) =>
          let new_qty := old_qty + r.quantity
          let new_avg := (old_price * (old_qty : ℚ) +
            current_price * (r.quantity : ℚ)) / (new_qty : ℚ)
          assocSet st.positions r.symbol (new_qty, new_avg)
        | none => assocSet st.positions r.symbol (r.quantity, current_price)
      { st with
        cash := st.cash - cost
        positions := positions
        trades := st.trades ++
          [⟨day, r.symbol, "buy", r.quantity, current_price, r.id⟩] }
    else st
  | .sell =>
    match st.positions.lookup r.symbol with
    | some (qty, avg_price) =>
      let sell_qty := min qty r.quantity
      let positions :=
        if sell_qty ≥ qty then assocErase st.positions r.symbol
        else assocSet st.positions r.symbol (qty - sell_qty, avg_price)
      { st with
        cash := st.cash + current_price * (sell_qty : ℚ)
        positions := positions
        trades := st.trades ++
          [⟨day, r.symbol, "sell", sell_qty, current_price, r.id⟩] }
    | none => st

/-- Per-rule step of the day loop in `Backtester.run`: only disabled rules
are skipped (`continue`); an enabled rule trades whenever its price
condition holds on that day. -/
def processRule (day : ℕ) (st : BTState) (r : Rule) : BTState :=
  if !r.enabled then st
  else
    let current_price := st.prices r.symbol
    if btTriggered r current_price then execTrade day st r current_price
    else st

/-- One simulated day of `Backtester.run`: every symbol's price advances by
the injected daily return `change` (the Gaussian draw), floored at 1; every
rule is then processed in order and the day's equity is appended to the
curve. -/
def stepDay (symbols : List String) (change : String → ℚ) (day : ℕ)
    (st : BTState) : BTState :=
  let prices := fun s =>
    if s ∈ symbols then max (st.prices s * (1 + change s)) 1 else st.prices s
  let st1 := { st with prices }
  let st2 := st1.rules.foldl (processRule day) st1
  { st2 with equity_curve :=
      st2.equity_curve ++ [st2.cash + positionsValue st2.prices st2.positions] }

/-- Win/loss pairing step of `Backtester.run`: a buy appends its price to
the per-symbol `buy_prices` queue; a sell pops the front of its symbol's
queue (skipping when empty) and wins exactly when its price strictly
exceeds that buy price.  The `buy_prices` dict is modelled as a total map
defaulting to the empty queue. -/
def tallyStep (acc : (String → List ℚ) × ℕ × ℕ) (t : BacktestTrade) :
    (String → List ℚ) × ℕ × ℕ :=
  let (bp, w, l) := acc
  if t.side = "buy" then
    (fun s => if s = t.symbol then bp s ++ [t.price] else bp s, w, l)
  else if t.side = "sell" then
    match bp t.symbol with
    | [] => acc
    | b :: rest =>
      (fun s => if s = t.symbol then rest else bp s,
        if t.price > b then w + 1 else w,
        if t.price > b then l else l + 1)
  else acc

/-- Winning and losing counts over the whole trade list. -/
def tallyWinLoss (trades : List BacktestTrade) : ℕ × ℕ :=
  (trades.foldl tallyStep (fun _ => [], 0, 0)).2

/-- Win-rate computation of `Backtester.run`: `winning / total_completed`
when there are completed pairs, else 0.  (The source detours through a
Python float; the division is modelled exactly.) -/
def winRate (winning losing : ℕ) : ℚ :=
  if winning + losing > 0 then (winning : ℚ) / ((winning + losing : ℕ) : ℚ)
  else 0

/-- Drawdown scan of `Backtester.run`: walk the equity curve keeping the
running peak and the running maximum of `(peak - equity) / peak`. -/
def ddScan (peak md : ℚ) : List ℚ → ℚ
  | [] => md
  | e :: es =>
    let peak1 := if e > peak then e else peak
    let dd := (peak1 - e) / peak1
    ddScan peak1 (if dd > md then dd else md) es

/-- Max drawdown of `Backtester.run`: the peak starts at the first curve
sample and the whole curve is scanned.  (The curve is never empty in the
source — it is seeded with the initial capital; the empty case returns
0.) -/
def max_drawdown_of (curve : List ℚ) : ℚ :=
  match curve with
  | [] => 0
  | e :: es => ddScan e 0 (e :: es)

/-- Final report of a run (`BacktestResult` in `trader/core/backtest.py`),
with the wall-clock start and end timestamps omitted. -/
structure BacktestResult where
  initial_capital : ℚ
  final_capital : ℚ
  total_return : ℚ
  total_return_pct : ℚ
  total_trades : ℕ
  winning_trades : ℕ
  losing_trades : ℕ
  win_rate : ℚ
  max_drawdown : ℚ
  trades : List BacktestTrade

/-- Closing metrics block of `Backtester.run`. -/
def mkResult (initial_capital : ℚ) (st : BTState) : BacktestResult :=
  let final_capital := st.equity_curve.getLastD initial_capital
  let total_return := final_capital - initial_capital
  let wl := tallyWinLoss st.trades
  { initial_capital
    final_capital
    total_return
    total_return_pct := total_return / initial_capital
    total_trades := st.trades.length
    winning_trades := wl.1
    losing_trades := wl.2
    win_rate := winRate wl.1 wl.2
    max_drawdown := max_drawdown_of st.equity_curve
    trades := st.trades }

/-- `Backtester.run` with the random draws injected as explicit inputs:
`offset` is the uniform start-price perturbation per symbol and
`change day` is the Gaussian daily return of each symbol on `day`.  An
empty rule list raises `ValueError`, modelled as `none`; otherwise the run
returns the final simulation state and the result. -/
def runBacktest (rules : List Rule) (days : ℕ) (initial_capital : ℚ)
    (offset : String → ℚ) (change : ℕ → String → ℚ) :
    Option (BTState × BacktestResult) :=
  if rules = [] then none
  else
    let symbols := (rules.map (fun r => r.symbol)).dedup
    let prices := fun s =>
      match rules.find? (fun r => r.symbol == s) with
      | some r => r.target_price * (1 + offset s)
      | none => 0
    let st0 : BTState :=
      { cash := initial_capital
        positions := []
        trades := []
        equity_curve := [initial_capital]
        prices
        rules }
    let stN := (List.range days).foldl
      (fun st day => stepDay symbols (change day) day st) st0
    some (stN, mkResult initial_capital stN)

/-- Trade execution never touches the rule list. -/
lemma execTrade_rules (day : ℕ) (st : BTState) (r : Rule) (p : ℚ) :
    (execTrade day st r p).rules = st.rules := by
  unfold execTrade
  cases r.action
  case buy =>
    dsimp only
    split_ifs <;> rfl
  case sell =>
    dsimp only
    rcases st.positions.lookup r.symbol with _ | ⟨q, a⟩ <;> rfl

/-- Processing one rule never touches the rule list. -/
lemma processRule_rules (day : ℕ) (st : BTState) (r : Rule) :
    (processRule day st r).rules = st.rules := by
  unfold processRule
  dsimp only
  split_ifs <;> simp [execTrade_rules]

/-- Folding the per-rule step over any rule list preserves the rule list in
the state. -/
lemma foldl_processRule_rules (day : ℕ) (rs : List Rule) :
    ∀ st : BTState, (rs.foldl (processRule day) st).rules = st.rules := by
  induction rs with
  | nil => intro st; rfl
  | cons r rest ih =>
    intro st
    rw [List.foldl_cons, ih, processRule_rules]

/-- A simulated day preserves the rule list. -/
lemma stepDay_rules (symbols : List String) (change : String → ℚ) (day : ℕ)
    (st : BTState) : (stepDay symbols change day st).rules = st.rules := by
  unfold stepDay
  dsimp only
  rw [foldl_processRule_rules]

/-- The whole day loop preserves the rule list. -/
lemma foldl_stepDay_rules (symbols : List String)
    (change : ℕ → String → ℚ) (l : List ℕ) :
    ∀ st : BTState,
      ((l.foldl (fun st day => stepDay symbols (change day) day st)
        st).rules) = st.rules := by
  induction l with
  | nil => intro st; rfl
  | cons d rest ih =>
    intro st
    rw [List.foldl_cons, ih, stepDay_rules]

/-- C5: `Backtester.run` leaves the rules it was given unchanged, and its
per-rule day step ignores the `triggered` latch: a disabled rule is
skipped, while an enabled rule trades on every day its price condition
holds, whatever its `triggered` flag — so a rule can fire on many days of
one run. -/
theorem C5_backtest_frame_and_refire :
    (∀ (rules : List Rule) (days : ℕ) (cap : ℚ) (offset : String → ℚ)
        (change : ℕ → String → ℚ), rules ≠ [] →
        (runBacktest rules days cap offset change).map (fun p => p.1.rules)
          = some rules)
    ∧ (∀ (day : ℕ) (st : BTState) (r : Rule) (b : Bool),
        processRule day st { r with triggered := b } = processRule day st r)
    ∧ (∀ (day : ℕ) (st : BTState) (r : Rule), r.enabled = false →
        processRule day st r = st)
    ∧ (∀ (day : ℕ) (st : BTState) (r : Rule), r.enabled = true →
        btTriggered r (st.prices r.symbol) = true →
        processRule day st r = execTrade day st r (st.prices r.symbol)) := by
  refine ⟨?_, ?_, ?_, ?_⟩
  · intro rules days cap offset change hne
    rw [runBacktest, if_neg hne]
    dsimp only [Option.map_some']
    rw [foldl_stepDay_rules]
  · intro day st r b
    cases r
    rfl
  · intro day st r h
    rw [processRule, h]
    rfl
  · intro day st r he ht
    rw [processRule, he]
    dsimp only
    rw [ht]
    rfl

/-- Example simulation state used to instantiate the C5 theorem. -/
def exState : BTState :=
  { cash := 100000
    positions := []
    trades := []
    equity_curve := [100000]
    prices := fun _ => 100
    rules := [exRule] }

/-- Witness for C5 at a concrete rule and state: the run returns the rules
unchanged, the step ignores the `triggered` flag, a disabled copy is
skipped, and the enabled rule fires at a qualifying price. -/
theorem C5_backtest_frame_and_refire_witness :
    (([exRule] : List Rule) ≠ [])
    ∧ ((runBacktest [exRule] 1 100000 (fun _ => 0) (fun _ _ => 0)).map
        (fun p => p.1.rules) = some [exRule])
    ∧ processRule 0 exState { exRule with triggered := true }
        = processRule 0 exState exRule
    ∧ ({ exRule with enabled := false } : Rule).enabled = false
    ∧ processRule 0 exState { exRule with enabled := false } = exState
    ∧ exRule.enabled = true
    ∧ btTriggered exRule (exState.prices exRule.symbol) = true
    ∧ processRule 0 exState exRule
        = execTrade 0 exState exRule (exState.prices exRule.symbol) :=
  ⟨List.cons_ne_nil _ _,
    C5_backtest_frame_and_refire.1 [exRule] 1 100000 (fun _ => 0)
      (fun _ _ => 0) (List.cons_ne_nil _ _),
    C5_backtest_frame_and_refire.2.1 0 exState exRule true,
    rfl,
    C5_backtest_frame_and_refire.2.2.1 0 exState _ rfl,
    rfl,
    by decide,
    C5_backtest_frame_and_refire.2.2.2 0 exState exRule rfl (by decide)⟩

/-- FIFO pairing as the specification states it: scanning the trades in
order, `buys s` collects the buy prices of symbol `s` seen so far and
`m s` counts that symbol's already-matched sells.  A sell is matched
exactly when fewer sells of its symbol have been matched than buys seen;
it pairs with the `m`-th oldest buy — the oldest not-yet-consumed earlier
buy — wins exactly when its price strictly exceeds that buy price, and
advances `m`. -/
def specStep (acc : (String → List ℚ) × (String → ℕ) × ℕ × ℕ)
    (t : BacktestTrade) : (String → List ℚ) × (String → ℕ) × ℕ × ℕ :=
  let (buys, m, w, l) := acc
  if t.side = "buy" then
    (fun s => if s = t.symbol then buys s ++ [t.price] else buys s, m, w, l)
  else if t.side = "sell" then
    if m t.symbol < (buys t.symbol).length then
      let b := (buys t.symbol).getD (m t.symbol) 0
      (buys, fun s => if s = t.symbol then m s + 1 else m s,
        if t.price > b then w + 1 else w,
        if t.price > b then l else l + 1)
    else acc
  else acc

/-- Winning and losing counts under the specification's FIFO pairing. -/
def specTally (trades : List BacktestTrade) : ℕ × ℕ :=
  (trades.foldl specStep (fun _ => [], fun _ => 0, 0, 0)).2.2

/-- A drop of a list that yields a cons determines the element at that
index. -/
lemma getD_of_drop_eq_cons {l : List ℚ} {n : ℕ} {b : ℚ} {t : List ℚ}
    (h : l.drop n = b :: t) : l.getD n 0 = b := by
  have h2 := List.head?_drop l n
  rw [h] at h2
  simp only [List.head?_cons] at h2
  rw [List.getD_eq_getElem?_getD, ← h2]
  rfl

/-- A drop of a list that yields a cons certifies the index is in range. -/
lemma lt_length_of_drop_eq_cons {l : List ℚ} {n : ℕ} {b : ℚ} {t : List ℚ}
    (h : l.drop n = b :: t) : n < l.length := by
  by_contra hc
  rw [not_lt] at hc
  rw [List.drop_eq_nil_iff.mpr hc] at h
  exact List.noConfusion h

/-- Queue invariant tying the run's pairing state to the specification's:
each symbol's pending-buy queue is the buys seen so far with the matched
prefix dropped.  Under it the two scans produce the same counts. -/
lemma tally_agrees_aux (ts : List BacktestTrade) :
    ∀ (bp buys : String → List ℚ) (m : String → ℕ) (w l : ℕ),
      (∀ s, bp s = (buys s).drop (m s)) →
      (∀ s, m s ≤ (buys s).length) →
      (ts.foldl tallyStep (bp, w, l)).2
        = (ts.foldl specStep (buys, m, w, l)).2.2 := by
  induction ts with
  | nil => intros; rfl
  | cons t rest ih =>
    intro bp buys m w l hinv hle
    rw [List.foldl_cons, List.foldl_cons]
    by_cases hb : t.side = "buy"
    · simp only [tallyStep, specStep, if_pos hb]
      refine ih _ _ _ _ _ (fun s => ?_) (fun s => ?_)
      · by_cases hsym : s = t.symbol
        · simp only [hsym, if_pos rfl, hinv t.symbol]
          exact (List.drop_append_of_le_length (hle t.symbol)).symm
        · simp only [if_neg hsym, hinv s]
      · by_cases hsym : s = t.symbol
        · simp [hsym]
          exact le_trans (hle t.symbol) (by omega)
        · simp only [if_neg hsym]
          exact hle s
    · by_cases hs : t.side = "sell"
      · rcases hq : bp t.symbol with _ | ⟨b, rest'⟩
        · have hnil : (buys t.symbol).length ≤ m t.symbol := by
            rw [← List.drop_eq_nil_iff, ← hinv t.symbol]
            exact hq
          simp only [tallyStep, specStep, if_neg hb, if_pos hs, hq,
            if_neg (not_lt.mpr hnil)]
          exact ih _ _ _ _ _ hinv hle
        · have hdrop : (buys t.symbol).drop (m t.symbol) = b :: rest' := by
            rw [← hinv t.symbol]
            exact hq
          have hlt := lt_length_of_drop_eq_cons hdrop
          have hgetD := getD_of_drop_eq_cons hdrop
          simp only [tallyStep, specStep, if_neg hb, if_pos hs, hq,
            if_pos hlt, hgetD]
          refine ih _ _ _ _ _ (fun s => ?_) (fun s => ?_)
          · by_cases hsym : s = t.symbol
            · simp only [hsym, if_pos rfl]
              have ht : ((buys t.symbol).drop (m t.symbol)).tail = rest' := by
                rw [hdrop, List.tail_cons]
              rw [List.tail_drop] at ht
              exact ht.symm
            · simp only [if_neg hsym]
              exact hinv s
          · by_cases hsym : s = t.symbol
            · simp only [hsym, if_pos rfl]
              exact hlt
            · simp only [if_neg hsym]
              exact hle s
      · simp only [tallyStep, specStep, if_neg hb, if_neg hs]
        exact ih _ _ _ _ _ hinv hle

/-- Example trade sequence from the specification: two buys then two
sells on one symbol. -/
def exTrades : List BacktestTrade :=
  [⟨0, "AAPL", "buy", 10, 100, "r1"⟩,
   ⟨1, "AAPL", "buy", 10, 110, "r1"⟩,
   ⟨2, "AAPL", "sell", 10, 105, "r2"⟩,
   ⟨3, "AAPL", "sell", 10, 120, "r2"⟩]

/-- C6: the run's win/loss tally is the specification's FIFO pairing —
each sell consumes the oldest unconsumed earlier buy of its symbol,
winning exactly when the sell price strictly exceeds that buy's price;
the win rate is winning/(winning+losing) and 0 with no completed pairs;
and on buy@100, buy@110, sell@105, sell@120 the tally is 2 winning, 0
losing. -/
theorem C6_fifo_pairing :
    (∀ ts : List BacktestTrade, tallyWinLoss ts = specTally ts)
    ∧ (∀ w l : ℕ, winRate w l = (w : ℚ) / ((w : ℚ) + (l : ℚ)))
    ∧ winRate 0 0 = 0
    ∧ tallyWinLoss exTrades = (2, 0)
    ∧ winRate (tallyWinLoss exTrades).1 (tallyWinLoss exTrades).2 = 1 := by
  refine ⟨?_, ?_, rfl, by decide, ?_⟩
  · intro ts
    exact tally_agrees_aux ts _ _ _ 0 0 (fun s => rfl) (fun s => Nat.zero_le _)
  · intro w l
    unfold winRate
    split_ifs with h
    · norm_num
    · have hw : w = 0 := by omega
      have hl : l = 0 := by omega
      simp [hw, hl]
  · have h : tallyWinLoss exTrades = (2, 0) := by decide
    rw [h]
    norm_num [winRate]

/-- The source's `if x > a then x else a` update is the running maximum. -/
lemma ite_gt_eq_max (a x : ℚ) : (if x > a then x else a) = max a x := by
  rcases le_or_lt x a with h | h
  · rw [if_neg (not_lt.mpr h), max_eq_left h]
  · rw [if_pos h, max_eq_right h.le]

/-- Per-sample drawdowns along a curve: each sample's
`(peak - value) / peak` against the running maximum seeded by `peak`. -/
def ddSpecList (peak : ℚ) : List ℚ → List ℚ
  | [] => []
  | e :: es => (max peak e - e) / max peak e :: ddSpecList (max peak e) es

/-- Max drawdown as the specification states it: the largest value of
`(peak − value)/peak` over the curve, `peak` being the running maximum of
the curve up to that sample. -/
def specMaxDrawdown (curve : List ℚ) : ℚ :=
  match curve with
  | [] => 0
  | e :: es => (ddSpecList e (e :: es)).foldl max 0

/-- The source's scan computes the fold of `max` over the per-sample
drawdown list. -/
lemma ddScan_eq_foldl (l : List ℚ) :
    ∀ peak md : ℚ, ddScan peak md l = (ddSpecList peak l).foldl max md := by
  induction l with
  | nil => intros; rfl
  | cons e es ih =>
    intro peak md
    simp only [ddScan, ddSpecList, List.foldl_cons]
    rw [ite_gt_eq_max, ite_gt_eq_max, ih]

/-- C7: the run's max drawdown is the largest `(peak − value)/peak` over
the equity curve with `peak` the running maximum, and on the curve
[100000, 110000, 90000, 95000] it equals 20000/110000. -/
theorem C7_max_drawdown :
    (∀ curve : List ℚ, max_drawdown_of curve = specMaxDrawdown curve)
    ∧ max_drawdown_of [100000, 110000, 90000, 95000] = 20000 / 110000 := by
  constructor
  · intro curve
    cases curve with
    | nil => rfl
    | cons e es =>
      unfold max_drawdown_of specMaxDrawdown
      exact ddScan_eq_foldl (e :: es) e 0
  · norm_num [max_drawdown_of, ddScan]

/-- Stop-request history for the trading loop: `sched u` says a stop
request (a `stop()` call or a shutdown signal routed to it) arrives at
instant `u`.  `reqBy sched t` is the `_stop_requested` flag as read at
instant `t`: set once any request at or before `t` has arrived. -/
def reqBy (sched : ℕ → Bool) (t : ℕ) : Bool := (List.range (t + 1)).any sched

/-- Events of `TradingEngine._run_loop`: one executed cycle, or one
`time.sleep` call, each with its start instant and its duration. -/
inductive Ev where
  | cycle (start dur : ℕ)
  | sleep (start dur : ℕ)
deriving DecidableEq, Repr

/-- `TradingEngine._run_loop` from `trader/core/engine.py` over discrete
time.  `cycleDur t` is the duration of the cycle starting at `t` (the
`try`/`except` body) and `fuel` bounds the number of iterations.  While
`_stop_requested` is unset at the loop head, the loop runs a cycle,
computes `sleep_time = max(0, poll_interval - elapsed)` (truncated
subtraction here), and — exactly when `sleep_time > 0` and no stop has
been requested by the cycle's end — performs `time.sleep(sleep_time)` as
one uninterruptible step of that full duration: in the source a stop
request arriving during the sleep only sets a flag that is next read at
the loop head, after the sleep has completed. -/
def runLoop (interval : ℕ) (cycleDur : ℕ → ℕ) (sched : ℕ → Bool) :
    ℕ → ℕ → List Ev
  | 0, _ => []
  | fuel + 1, t =>
    if reqBy sched t then []
    else
      let d := cycleDur t
      let s := interval - d
      if 0 < s ∧ reqBy sched (t + d) = false then
        Ev.cycle t d :: Ev.sleep (t + d) s ::
          runLoop interval cycleDur sched fuel (t + d + s)
      else Ev.cycle t d :: runLoop interval cycleDur sched fuel (t + d)

/-- Concrete stop schedule: a single stop request at instant 5. -/
def exSched (t : ℕ) : Bool := t == 5

/-- When the stop flag is already set at the loop head, the loop exits at
once: no further cycle and no sleep. -/
lemma runLoop_stopped (interval : ℕ) (cycleDur : ℕ → ℕ) (sched : ℕ → Bool)
    (fuel t : ℕ) (h : reqBy sched t = true) :
    runLoop interval cycleDur sched fuel t = [] := by
  cases fuel with
  | zero => rfl
  | succ fuel => simp only [runLoop, if_pos h]

/-- Every sleep in the trace starts with the stop flag unset and has
positive duration: the loop never enters the sleep after a stop request. -/
lemma runLoop_sleep_entered (interval : ℕ) (cycleDur : ℕ → ℕ)
    (sched : ℕ → Bool) (fuel : ℕ) :
    ∀ t st du, Ev.sleep st du ∈ runLoop interval cycleDur sched fuel t →
      reqBy sched st = false ∧ 0 < du := by
  induction fuel with
  | zero => intro t st du h; exact absurd h (List.not_mem_nil _)
  | succ fuel ih =>
    intro t st du h
    simp only [runLoop] at h
    by_cases hreq : reqBy sched t = true
    · rw [if_pos hreq] at h
      exact absurd h (List.not_mem_nil _)
    · rw [if_neg hreq] at h
      by_cases hg : 0 < interval - cycleDur t ∧
          reqBy sched (t + cycleDur t) = false
      · rw [if_pos hg] at h
        rcases List.mem_cons.mp h with heq | h2
        · exact absurd heq (by simp)
        · rcases List.mem_cons.mp h2 with heq | h3
          · obtain ⟨h1, h2⟩ := Ev.sleep.inj heq
            rw [h1, h2]
            exact ⟨hg.2, hg.1⟩
          · exact ih _ _ _ h3
      · rw [if_neg hg] at h
        rcases List.mem_cons.mp h with heq | h2
        · exact absurd heq (by simp)
        · exact ih _ _ _ h2

/-- A sleep by whose end a stop has been requested is the last event of
the trace: the loop wakes, sees the flag, and exits without another
cycle. -/
lemma runLoop_sleep_last (interval : ℕ) (cycleDur : ℕ → ℕ)
    (sched : ℕ → Bool) (fuel : ℕ) :
    ∀ t st du, Ev.sleep st du ∈ runLoop interval cycleDur sched fuel t →
      reqBy sched (st + du) = true →
      ∃ pre, runLoop interval cycleDur sched fuel t
          = pre ++ [Ev.sleep st du] := by
  induction fuel with
  | zero => intro t st du h; exact absurd h (List.not_mem_nil _)
  | succ fuel ih =>
    intro t st du h hend
    simp only [runLoop] at h ⊢
    by_cases hreq : reqBy sched t = true
    · rw [if_pos hreq] at h
      exact absurd h (List.not_mem_nil _)
    · rw [if_neg hreq] at h ⊢
      by_cases hg : 0 < interval - cycleDur t ∧
          reqBy sched (t + cycleDur t) = false
      · rw [if_pos hg] at h ⊢
        rcases List.mem_cons.mp h with heq | h2
        · exact absurd heq (by simp)
        · rcases List.mem_cons.mp h2 with heq | h3
          · obtain ⟨he1, he2⟩ := Ev.sleep.inj heq
            subst he1
            subst he2
            refine ⟨[Ev.cycle t (cycleDur t)], ?_⟩
            rw [runLoop_stopped _ _ _ _ _ hend]
            rfl
          · obtain ⟨pre, hpre⟩ := ih _ _ _ h3 hend
            exact ⟨Ev.cycle t (cycleDur t) :: Ev.sleep (t + cycleDur t)
              (interval - cycleDur t) :: pre, by rw [hpre]; rfl⟩
      · rw [if_neg hg] at h ⊢
        rcases List.mem_cons.mp h with heq | h2
        · exact absurd heq (by simp)
        · obtain ⟨pre, hpre⟩ := ih _ _ _ h2 hend
          exact ⟨Ev.cycle t (cycleDur t) :: pre, by rw [hpre]; rfl⟩

/-- C9 counterexample: with poll interval 10, a cycle of duration 2 and a
stop request arriving at instant 5 — strictly inside the sleep spanning
instants 2 to 10 — the trace still records a sleep of the full remaining
duration 8 = 10 − 2 before the loop exits, refuting that a mid-sleep stop
cuts the sleep short. -/
theorem C9_counterexample :
    runLoop 10 (fun _ => 2) exSched 3 0 = [Ev.cycle 0 2, Ev.sleep 2 8]
    ∧ (2 < 5 ∧ 5 < 2 + 8 ∧ exSched 5 = true)
    ∧ 8 = 10 - 2 := by decide

/-- C9 amended: a stop request is honoured at the loop head (no further
cycle, no sleep) and before entering the sleep (no sleep starts once a
stop was requested); a stop requested by the end of a sleep makes that
sleep the final event — the loop exits afterwards without starting a new
cycle — but the sleep itself always runs its full computed duration. -/
theorem C9_stop_semantics :
    (∀ (interval : ℕ) (cycleDur : ℕ → ℕ) (sched : ℕ → Bool) (fuel t : ℕ),
        reqBy sched t = true →
        runLoop interval cycleDur sched fuel t = [])
    ∧ (∀ (interval : ℕ) (cycleDur : ℕ → ℕ) (sched : ℕ → Bool)
        (fuel t st du : ℕ),
        Ev.sleep st du ∈ runLoop interval cycleDur sched fuel t →
        reqBy sched st = false ∧ 0 < du)
    ∧ (∀ (interval : ℕ) (cycleDur : ℕ → ℕ) (sched : ℕ → Bool)
        (fuel t st du : ℕ),
        Ev.sleep st du ∈ runLoop interval cycleDur sched fuel t →
        reqBy sched (st + du) = true →
        ∃ pre, runLoop interval cycleDur sched fuel t
            = pre ++ [Ev.sleep st du]) :=
  ⟨fun i c sch fuel t h => runLoop_stopped i c sch fuel t h,
   fun i c sch fuel t st du h => runLoop_sleep_entered i c sch fuel t st du h,
   fun i c sch fuel t st du h hend =>
     runLoop_sleep_last i c sch fuel t st du h hend⟩

/-- Witness for C9 amended, on the counterexample schedule. -/
theorem C9_stop_semantics_witness :
    (reqBy exSched 6 = true)
    ∧ runLoop 10 (fun _ => 2) exSched 3 6 = []
    ∧ (Ev.sleep 2 8 ∈ runLoop 10 (fun _ => 2) exSched 3 0)
    ∧ (reqBy exSched 2 = false ∧ 0 < 8)
    ∧ (reqBy exSched (2 + 8) = true)
    ∧ (∃ pre, runLoop 10 (fun _ => 2) exSched 3 0
        = pre ++ [Ev.sleep 2 8]) :=
  ⟨by decide,
   C9_stop_semantics.1 10 (fun _ => 2) exSched 3 6 (by decide),
   by decide,
   C9_stop_semantics.2.1 10 (fun _ => 2) exSched 3 0 2 8 (by decide),
   by decide,
   C9_stop_semantics.2.2 10 (fun _ => 2) exSched 3 0 2 8 (by decide)
     (by decide)⟩
